import Mathlib

/-!
Shallow embedding of the variant-reconciliation and score-aggregation engine
of this repository (src/pgs_calculator.py and src/snp_extractor.py).

Conventions of the embedding:
* A pandas DataFrame read from a file becomes a Lean structure with one field
  per column the code touches; column presence flags live on the table, since
  scheme detection in the source is column-level (`'rsID' in pgs_data.columns`).
* Python `set` becomes `Finset String`; Python `dict` built by iterating rows
  (later insertions overwrite earlier ones) becomes lookup on the reversed row
  list (`List.find?` on the reversed list = last-wins).
* Numeric score/phenotype values are modelled as `ℚ`; a pandas missing value
  (NaN after a failed alignment or join) is `Option.none`.
* The external scorer (the `plink` subprocess) is out of repository scope; it
  is a function parameter, modelled from the spec (§6): a black box
  `invoke(name, weightTable) → some scoreTable | none` where `none` is a
  non-zero exit status.
* `calculate_pgs` returning `(None, None)` without writing the output csv is
  modelled as `Option.none`; `some d` means the final dataset `d` was written.
-/

/-- One row of the reference panel's variant-metadata (.bim) file, as read by
`pd.read_csv(bim_file, ..., names=['chr','rsID','cm','pos','A1','A2'])`.
`chr` and `pos` are kept as the strings interpolated into `f"chr{..}:{..}"`. -/
structure BimRow where
  chr : String
  rsID : String
  cm : String
  pos : String
  A1 : String
  A2 : String
deriving DecidableEq, Repr

/-- One row of the pedigree (.fam) file:
`names=['FID','IID','PID','MID','SEX','PHENOTYPE']`. -/
structure FamRow where
  FID : String
  IID : String
  PID : String
  MID : String
  SEX : String
  PHENOTYPE : ℚ
deriving DecidableEq, Repr

/-- One row of a scoring-definition (.txt) file. Field values are meaningful
only when the corresponding column exists on the table (see `PgsTable`). -/
structure PgsRow where
  rsID : String
  chr_name : String
  chr_position : String
  effect_allele : String
  effect_weight : String
deriving DecidableEq, Repr

/-- A parsed scoring-definition file: which columns are present, plus the rows.
Column presence is table-level, exactly as `'rsID' in pgs_data.columns`. -/
structure PgsTable where
  hasRsID : Bool
  hasChrName : Bool
  hasChrPos : Bool
  hasEffectAllele : Bool
  hasEffectWeight : Bool
  rows : List PgsRow
deriving DecidableEq, Repr

/-- One row of the weight file handed to the external scorer:
`f.write(f"{snp_id} {effect_allele} {weight}\n")`. -/
structure WeightRow where
  snp : String
  a1 : String
  weight : String
deriving DecidableEq, Repr

/-- One row of a per-sample score (.profile) table produced by the external
scorer; the code reads columns `FID`, `IID`, `SCORE`. -/
structure ScoreRow where
  FID : String
  IID : String
  SCORE : ℚ
deriving DecidableEq, Repr

/-- `pos_id = f"chr{row['chr']}:{row['pos']}"`. -/
def posKey (c p : String) : String := "chr" ++ c ++ ":" ++ p

/-- `snps = set(bim_data['rsID'])`. -/
def snps (bim : List BimRow) : Finset String := (bim.map BimRow.rsID).toFinset

/-- `pos_dict.get(x, x)`: the dict is filled row by row, so for a duplicated
positional key the last row wins; a missing key returns `x` itself. -/
def posDictGet (bim : List BimRow) (x : String) : String :=
  match bim.reverse.find? (fun b => posKey b.chr b.pos == x) with
  | some b => b.rsID
  | none => x

/-- `is_rsid_based = 'rsID' in pgs_data.columns`. -/
def is_rsid_based (t : PgsTable) : Bool := t.hasRsID

/-- `is_position_based = 'chr_name' in ... and 'chr_position' in ...`. -/
def is_position_based (t : PgsTable) : Bool := t.hasChrName && t.hasChrPos

/-- Canonical identifier of one scoring entry: the value of the `rsID` column
after lines 72–78 of `pgs_calculator.py` (identically, lines 51–56 of
`snp_extractor.py`): untouched when the table has an `rsID` column, otherwise
the synthesized `"chr{chr_name}:{chr_position}"` mapped through the position
dict with the key itself as fallback. -/
def canonicalId (bim : List BimRow) (t : PgsTable) (r : PgsRow) : String :=
  if t.hasRsID then r.rsID
  else posDictGet bim (posKey r.chr_name r.chr_position)

/-- The full `pgs_data['rsID']` column after normalization. -/
def canonicalIds (bim : List BimRow) (t : PgsTable) : List String :=
  t.rows.map (canonicalId bim t)

/-- `common_snps = set(pgs_data['rsID']).intersection(snps)`. -/
def commonSnps (bim : List BimRow) (t : PgsTable) : Finset String :=
  (canonicalIds bim t).toFinset ∩ snps bim

/-- Coverage percent as printed by `pgs_calculator.py` line 84:
`len(common_snps)/len(pgs_data)*100` — the denominator is the ROW count. -/
def coverage_calc (bim : List BimRow) (t : PgsTable) : ℚ :=
  ((commonSnps bim t).card : ℚ) / (t.rows.length : ℚ) * 100

/-- Coverage percent as printed by `snp_extractor.py` line 64:
`len(common_snps)/len(pgs_snps)*100` — the denominator is the SET size. -/
def coverage_ext (bim : List BimRow) (t : PgsTable) : ℚ :=
  ((commonSnps bim t).card : ℚ) / (((canonicalIds bim t).toFinset.card : ℚ)) * 100

/-- `filtered_pgs = pgs_data[pgs_data['rsID'].isin(common_snps)]` projected row
by row to `(rsID, effect_allele, effect_weight)` in source order (the loop at
lines 96–100 of `pgs_calculator.py`); no deduplication. -/
def weightTable (bim : List BimRow) (t : PgsTable) : List WeightRow :=
  (t.rows.filter (fun r => decide (canonicalId bim t r ∈ commonSnps bim t))).map
    (fun r => ⟨canonicalId bim t r, r.effect_allele, r.effect_weight⟩)

/-- The external scorer (§6 of the spec; the `plink --score` subprocess).
Modelled from the spec: `invoke(panelPath, weightTablePath, outPrefix) →
ScoreTablePath | Error`; the reference-panel path is fixed for a run, so the
model takes the definition name and the weight table and returns the parsed
per-sample score table on exit status 0, `none` otherwise. -/
def Scorer : Type := String → List WeightRow → Option (List ScoreRow)

/-- Processing of one scoring definition (the loop body, lines 46–122 of
`pgs_calculator.py`). `none` means the definition contributed no .profile
file: no identifier scheme (line 63), missing weight columns (line 67), an
empty definition (`len(pgs_data) == 0` makes line 84 raise ZeroDivisionError,
swallowed by the broad `except` at line 120), no overlap (line 86), or a
non-zero scorer exit (line 116). -/
def processOne (bim : List BimRow) (scorer : Scorer) (name : String)
    (t : PgsTable) : Option (String × List ScoreRow) :=
  if ¬ (is_rsid_based t || is_position_based t) then none
  else if ¬ (t.hasEffectAllele && t.hasEffectWeight) then none
  else if t.rows.length = 0 then none
  else if (commonSnps bim t).card = 0 then none
  else match scorer name (weightTable bim t) with
    | none => none
    | some st => some (name, st)

/-- The whole definition loop: `profile_files` in processing order, with every
failed definition skipped (`continue`). -/
def processAll (bim : List BimRow) (scorer : Scorer)
    (defs : List (String × PgsTable)) : List (String × List ScoreRow) :=
  defs.filterMap (fun d => processOne bim scorer d.1 d.2)

/-- The values of the dataframe column `combined[pgs_name]` after the
assignment `combined[pgs_name] = df['SCORE']` (line 139 of
`pgs_calculator.py`): pandas aligns the Series on its integer index, i.e.
POSITIONALLY — row `i` of `combined` receives the `i`-th SCORE of `df`, a
missing index yields NaN (`none`), and extra rows of `df` are dropped. -/
def colValues (n : Nat) (st : List ScoreRow) : List (Option ℚ) :=
  (List.range n).map (fun i => (st.map ScoreRow.SCORE)[i]?)

/-- Dataframe column assignment `combined[name] = v`: replace the values in
place when a column of that name exists, otherwise append a new column. -/
def upsertCol (cols : List (String × List (Option ℚ))) (name : String)
    (v : List (Option ℚ)) : List (String × List (Option ℚ)) :=
  if cols.any (fun c => c.1 == name)
  then cols.map (fun c => if c.1 == name then (c.1, v) else c)
  else cols ++ [(name, v)]

/-- The score columns of `combined` after the loop at lines 134–139:
one assignment per profile file, in processing order. -/
def buildScoreCols (n : Nat) (profiles : List (String × List ScoreRow)) :
    List (String × List (Option ℚ)) :=
  profiles.foldl (fun acc p => upsertCol acc p.1 (colValues n p.2)) []

/-- `fam_data[...]` rows whose SampleKey equals `k`, in pedigree order. -/
def famMatches (fam : List FamRow) (k : String × String) : List FamRow :=
  fam.filter (fun f => decide (f.FID = k.1 ∧ f.IID = k.2))

/-- The output rows a single left row contributes to a pandas left merge: kept
once with a null phenotype when it has no pedigree match, otherwise emitted
once per matching pedigree row, in pedigree order. -/
def joinRow (fam : List FamRow) (ik : Nat × (String × String)) :
    List (Nat × (String × String) × Option ℚ) :=
  match famMatches fam ik.2 with
  | [] => [(ik.1, ik.2, (none : Option ℚ))]
  | ms => ms.map (fun f => (ik.1, ik.2, some f.PHENOTYPE))

/-- `pd.merge(combined, phenotype_data, on=['FID','IID'], how='left')`
restricted to what the code keeps: each left row (by its position `i` in
`combined` and its SampleKey) paired with a phenotype. -/
def leftJoinRows (keys : List (String × String)) (fam : List FamRow) :
    List (Nat × (String × String) × Option ℚ) :=
  (keys.enum.map (joinRow fam)).flatten

/-- One row of the written output csv: `FID, IID, <scores...>, y`. -/
structure OutRow where
  FID : String
  IID : String
  scores : List (Option ℚ)
  y : Option ℚ
deriving DecidableEq, Repr

/-- The final dataset written by `final_dataset.to_csv(...)`: the score column
names (after `X = combined.drop(['FID','IID','PHENOTYPE'], axis=1)`) and the
rows of `pd.concat([combined[['FID','IID']], X, pd.Series(y, name='y')])`. -/
structure FinalDataset where
  scoreNames : List String
  rows : List OutRow
deriving DecidableEq, Repr

/-- The written csv's header, in order. -/
def FinalDataset.colNames (d : FinalDataset) : List String :=
  "FID" :: "IID" :: d.scoreNames ++ ["y"]

/-- The aggregation stage (lines 130–156 of `pgs_calculator.py`) for a
non-empty list of profile tables: `base_df` is the FIRST profile, `combined`
starts as its `FID`/`IID` columns, every profile's SCORE column is assigned
positionally, the phenotype is left-joined on SampleKey, and the output is
`FID, IID, <score columns minus FID/IID/PHENOTYPE labels>, y`. -/
def aggregate (fam : List FamRow) (base : String × List ScoreRow)
    (profiles : List (String × List ScoreRow)) : FinalDataset :=
  let keys := base.2.map (fun r => (r.FID, r.IID))
  let n := keys.length
  let scoreCols := buildScoreCols n profiles
  let xCols := scoreCols.filter
    (fun c => ¬ (c.1 = "FID" ∨ c.1 = "IID" ∨ c.1 = "PHENOTYPE"))
  let joined := leftJoinRows keys fam
  { scoreNames := xCols.map (fun c => c.1)
    rows := joined.map (fun row =>
      { FID := row.2.1.1
        IID := row.2.1.2
        scores := xCols.map (fun c => c.2.getD row.1 none)
        y := row.2.2 }) }

/-- `calculate_pgs`: process each definition, and if at least one produced a
profile, aggregate and write the output (`some d`); if none did, return the
explicit empty result `(None, None)` with nothing written (`none`). -/
def calculate_pgs (bim : List BimRow) (fam : List FamRow) (scorer : Scorer)
    (defs : List (String × PgsTable)) : Option FinalDataset :=
  match processAll bim scorer defs with
  | [] => none
  | base :: rest => some (aggregate fam base (base :: rest))

/-- `genotypes['ID'] = genotypes['FID'].astype(str) + '_' + ...` in
`snp_extractor.py` line 112. -/
def sampleId (fid iid : String) : String := fid ++ "_" ++ iid

/-- `phenotype_dict = dict(zip(fam_data['ID'], fam_data['PHENOTYPE']))` then
`.get`-style lookup by `Series.map`: last duplicate key wins, a missing key
yields NaN. -/
def phenotype_dict (fam : List FamRow) (k : String) : Option ℚ :=
  (fam.reverse.find? (fun f => sampleId f.FID f.IID == k)).map FamRow.PHENOTYPE

/-- Sample rows of the recoded dosage table read by `snp_extractor.py`; the
label construction only touches `FID` and `IID`. -/
structure GenoRow where
  FID : String
  IID : String
deriving DecidableEq, Repr

/-- `y = genotypes['ID'].map(phenotype_dict)` (line 116 of
`snp_extractor.py`): one label per genotype row, via SampleKey lookup. -/
def labelVector (genos : List GenoRow) (fam : List FamRow) : List (Option ℚ) :=
  genos.map (fun g => phenotype_dict fam (sampleId g.FID g.IID))

/-! ### Concrete instances

Small concrete reference panels, pedigrees, scoring definitions and scorers
used by the witness and counterexample theorems below. -/

/-- A one-variant reference panel: `rs1` at chr1:100. -/
def bim1 : List BimRow := [⟨"1", "rs1", "0", "100", "A", "G"⟩]

/-- An rsID-based scoring definition whose single entry matches `rs1`. -/
def t1 : PgsTable := ⟨true, false, false, true, true, [⟨"rs1", "", "", "A", "0.5"⟩]⟩

/-- A scorer whose table for definition `B` carries a SampleKey `(F9, I9)`
that the table for `A` (the base) does not contain. -/
def scorer1 : Scorer := fun name _ =>
  if name = "A" then some [⟨"F1", "I1", 1⟩] else some [⟨"F9", "I9", 2⟩]

/-- A one-sample pedigree: `(F1, I1)` with phenotype 1. -/
def fam1 : List FamRow := [⟨"F1", "I1", "0", "0", "1", 1⟩]

/-- Two scoring definitions processed in order `A`, `B`. -/
def defs1 : List (String × PgsTable) := [("A", t1), ("B", t1)]

/-- Panel for the C2/C9-style witness runs: two variants. -/
def bim2 : List BimRow :=
  [⟨"1", "rs1", "0", "100", "A", "G"⟩, ⟨"2", "rs2", "0", "200", "C", "T"⟩]

/-- rsID-based definition matching `rs1`. -/
def t2a : PgsTable := ⟨true, false, false, true, true, [⟨"rs1", "", "", "A", "0.5"⟩]⟩

/-- rsID-based definition matching `rs2`. -/
def t2b : PgsTable := ⟨true, false, false, true, true, [⟨"rs2", "", "", "C", "0.7"⟩]⟩

/-- Two-sample pedigree. -/
def fam2 : List FamRow :=
  [⟨"F1", "I1", "0", "0", "1", 1⟩, ⟨"F2", "I2", "0", "0", "2", 2⟩]

/-- A scorer producing one row per pedigree sample, keyed like the pedigree. -/
def scorer2 : Scorer := fun name _ =>
  if name = "A" then some [⟨"F1", "I1", 1⟩, ⟨"F2", "I2", 3⟩]
  else some [⟨"F1", "I1", 5⟩, ⟨"F2", "I2", 7⟩]

/-- Definitions for the witness runs. -/
def defs2 : List (String × PgsTable) := [("A", t2a), ("B", t2b)]

/-- Witness panel for coverage: one variant. -/
def bim3 : List BimRow := [⟨"1", "rs1", "0", "100", "A", "G"⟩]

/-- Definition with two distinct entries, one matching: coverage 50. -/
def t3 : PgsTable :=
  ⟨true, false, false, true, true,
    [⟨"rs1", "", "", "A", "0.5"⟩, ⟨"rs9", "", "", "C", "0.1"⟩]⟩

/-- Definition whose two entries are the SAME rsID `rs1`, which the panel
contains: the row count is 2 but the canonical-ID set has size 1. -/
def t3dup : PgsTable :=
  ⟨true, false, false, true, true,
    [⟨"rs1", "", "", "A", "0.5"⟩, ⟨"rs1", "", "", "A", "0.5"⟩]⟩

/-- Panel with two loci for the normalization witness. -/
def bim4 : List BimRow :=
  [⟨"1", "rs1", "0", "100", "A", "G"⟩, ⟨"2", "rs2", "0", "200", "C", "T"⟩]

/-- Position-based definition (no rsID column): one entry at a panel locus,
one at an unknown locus. -/
def t4 : PgsTable :=
  ⟨false, true, true, true, true,
    [⟨"", "1", "100", "A", "0.5"⟩, ⟨"", "7", "777", "C", "0.1"⟩]⟩

/-- Definition with a duplicated matching entry and an unmatched entry, for
the weight-table witness. -/
def t5 : PgsTable :=
  ⟨true, false, false, true, true,
    [⟨"rs1", "", "", "A", "0.5"⟩, ⟨"rs9", "", "", "C", "0.1"⟩,
     ⟨"rs1", "", "", "G", "0.2"⟩]⟩

/-- A definition whose file has neither an rsID column nor both positional
columns: `UnresolvableIdentifierScheme`. -/
def t6bad : PgsTable := ⟨false, true, false, true, true, [⟨"", "1", "", "A", "0.5"⟩]⟩

/-- A scorer that succeeds on every definition with a fixed one-row table. -/
def scorer6 : Scorer := fun _ _ => some [⟨"F1", "I1", 1⟩]

/-- An rsID-based definition matching nothing in `bim1`-like panels:
`NoOverlap`. -/
def t7 : PgsTable := ⟨true, false, false, true, true, [⟨"rsX", "", "", "A", "0.5"⟩]⟩

/-- Feature-side SampleKeys for the join witness: the second has no pedigree
match. -/
def keys8 : List (String × String) := [("F1", "I1"), ("F9", "I9")]

/-- Pedigree for the join witness. -/
def fam8 : List FamRow := [⟨"F1", "I1", "0", "0", "1", 1⟩]

/-- Dosage-table sample rows for the label-vector witness. -/
def genos8 : List GenoRow := [⟨"F1", "I1"⟩, ⟨"F9", "I9"⟩]

/-- Definition with an rsID column AND both positional columns; its entry has
an empty rsID value while its positional key chr1:100 IS a panel locus. -/
def t10 : PgsTable := ⟨true, true, true, true, true, [⟨"", "1", "100", "A", "0.5"⟩]⟩

/-! ### General lemmas -/

theorem toFinset_card_eq_length_nodup {α : Type} [DecidableEq α] {l : List α}
    (h : l.toFinset.card = l.length) : l.Nodup := by
  rw [List.card_toFinset] at h
  exact List.dedup_eq_self.mp (l.dedup_sublist.eq_of_length h)

theorem list_toFinset_subset_iff {α : Type} [DecidableEq α] {l : List α}
    {s : Finset α} : l.toFinset ⊆ s ↔ ∀ x ∈ l, x ∈ s := by
  simp [Finset.subset_iff, List.mem_toFinset]

theorem ratio_nonneg (c n : ℕ) : 0 ≤ (c : ℚ) / (n : ℚ) * 100 := by positivity

theorem ratio_le_hundred {c n : ℕ} (h : 0 < n) :
    ((c : ℚ) / (n : ℚ) * 100 ≤ 100) ↔ c ≤ n := by
  have hn : (0 : ℚ) < (n : ℚ) := by exact_mod_cast h
  rw [div_mul_eq_mul_div, div_le_iff₀ hn]
  constructor
  · intro hle
    have : (c : ℚ) ≤ (n : ℚ) := by nlinarith
    exact_mod_cast this
  · intro hle
    have : (c : ℚ) ≤ (n : ℚ) := by exact_mod_cast hle
    nlinarith

theorem ratio_eq_hundred {c n : ℕ} (h : 0 < n) :
    ((c : ℚ) / (n : ℚ) * 100 = 100) ↔ c = n := by
  have hn : (0 : ℚ) < (n : ℚ) := by exact_mod_cast h
  rw [div_mul_eq_mul_div, div_eq_iff (ne_of_gt hn)]
  constructor
  · intro he
    have : (c : ℚ) = (n : ℚ) := by nlinarith
    exact_mod_cast this
  · intro he
    have : (c : ℚ) = (n : ℚ) := by exact_mod_cast he
    nlinarith

theorem canonicalIds_length (bim : List BimRow) (t : PgsTable) :
    (canonicalIds bim t).length = t.rows.length := by
  simp [canonicalIds]

theorem commonSnps_card_le_set (bim : List BimRow) (t : PgsTable) :
    (commonSnps bim t).card ≤ (canonicalIds bim t).toFinset.card :=
  Finset.card_le_card Finset.inter_subset_left

theorem set_card_le_rows (bim : List BimRow) (t : PgsTable) :
    (canonicalIds bim t).toFinset.card ≤ t.rows.length := by
  have := List.toFinset_card_le (canonicalIds bim t)
  rwa [canonicalIds_length] at this

theorem commonSnps_card_eq_set_iff (bim : List BimRow) (t : PgsTable) :
    (commonSnps bim t).card = (canonicalIds bim t).toFinset.card ↔
      ∀ id ∈ canonicalIds bim t, id ∈ snps bim := by
  constructor
  · intro h
    have hsub : commonSnps bim t ⊆ (canonicalIds bim t).toFinset :=
      Finset.inter_subset_left
    have heq : commonSnps bim t = (canonicalIds bim t).toFinset :=
      Finset.eq_of_subset_of_card_le hsub (le_of_eq h.symm)
    have : (canonicalIds bim t).toFinset ⊆ snps bim :=
      Finset.inter_eq_left.mp heq
    exact fun id hid => this (List.mem_toFinset.mpr hid)
  · intro h
    have : (canonicalIds bim t).toFinset ⊆ snps bim :=
      list_toFinset_subset_iff.mpr h
    rw [commonSnps, Finset.inter_eq_left.mpr this]

/-! ### Claim C3 — coverage percent -/

/-- C3, counterexample. The claim says the computed coverage percent equals
`|matchedIds| / |canonical IDs of D| * 100` and is 100 exactly when every
entry resolves to a panel ID. On the panel `bim3` and the definition `t3dup`
(two rows, both the panel rsID `rs1`), `pgs_calculator.py` line 84 computes
`1/2*100 = 50`: it divides by the ROW count, not by the size of the
canonical-ID set (which would give 100), and it is not 100 although every
entry of the definition resolves to a panel ID. -/
theorem C3_counterexample :
    coverage_calc bim3 t3dup = 50
    ∧ ((commonSnps bim3 t3dup).card : ℚ) /
        ((canonicalIds bim3 t3dup).toFinset.card : ℚ) * 100 = 100
    ∧ canonicalIds bim3 t3dup = ["rs1", "rs1"]
    ∧ "rs1" ∈ snps bim3
    ∧ coverage_calc bim3 t3dup ≠ 100 := by
  have hc : (commonSnps bim3 t3dup).card = 1 := by decide
  have hs : (canonicalIds bim3 t3dup).toFinset.card = 1 := by decide
  have hn : t3dup.rows.length = 2 := by decide
  refine ⟨?_, ?_, by decide, by decide, ?_⟩
  · rw [coverage_calc, hc, hn]; norm_num
  · rw [hc, hs]; norm_num
  · rw [coverage_calc, hc, hn]; norm_num

/-- C3, amended. For every non-empty scoring definition: in
`pgs_calculator.py` the computed coverage percent equals
`|matchedIds| / rowCount(D) * 100`, lies in `[0, 100]`, and equals 100 iff
the canonical IDs of D are pairwise distinct AND all present in the panel;
in `snp_extractor.py` the computed coverage percent equals
`|matchedIds| / |canonical-ID set of D| * 100`, lies in `[0, 100]`, and
equals 100 iff every entry of D resolves to a canonical ID present in the
panel (as the claim stated). -/
theorem C3_amended (bim : List BimRow) (t : PgsTable) (h : t.rows ≠ []) :
    coverage_calc bim t =
      ((commonSnps bim t).card : ℚ) / (t.rows.length : ℚ) * 100
    ∧ 0 ≤ coverage_calc bim t ∧ coverage_calc bim t ≤ 100
    ∧ (coverage_calc bim t = 100 ↔
        (canonicalIds bim t).Nodup ∧ ∀ id ∈ canonicalIds bim t, id ∈ snps bim)
    ∧ coverage_ext bim t =
      ((commonSnps bim t).card : ℚ) / ((canonicalIds bim t).toFinset.card : ℚ) * 100
    ∧ 0 ≤ coverage_ext bim t ∧ coverage_ext bim t ≤ 100
    ∧ (coverage_ext bim t = 100 ↔ ∀ id ∈ canonicalIds bim t, id ∈ snps bim) := by
  have hn : 0 < t.rows.length := List.length_pos.mpr h
  have hs : 0 < (canonicalIds bim t).toFinset.card := by
    obtain ⟨x, hx⟩ := List.exists_mem_of_ne_nil t.rows h
    exact Finset.card_pos.mpr
      ⟨canonicalId bim t x, List.mem_toFinset.mpr (List.mem_map_of_mem _ hx)⟩
  have hcs := commonSnps_card_le_set bim t
  have hsn := set_card_le_rows bim t
  refine ⟨rfl, ratio_nonneg _ _, ?_, ?_, rfl, ratio_nonneg _ _, ?_, ?_⟩
  · exact (ratio_le_hundred hn).mpr (le_trans hcs hsn)
  · rw [coverage_calc, ratio_eq_hundred hn]
    constructor
    · intro he
      have h1 : (commonSnps bim t).card = (canonicalIds bim t).toFinset.card := by
        omega
      have h2 : (canonicalIds bim t).toFinset.card = (canonicalIds bim t).length := by
        rw [canonicalIds_length]; omega
      exact ⟨toFinset_card_eq_length_nodup h2,
        (commonSnps_card_eq_set_iff bim t).mp h1⟩
    · rintro ⟨hnd, hall⟩
      have h1 : (commonSnps bim t).card = (canonicalIds bim t).toFinset.card :=
        (commonSnps_card_eq_set_iff bim t).mpr hall
      have h2 : (canonicalIds bim t).toFinset.card = t.rows.length := by
        rw [List.toFinset_card_of_nodup hnd, canonicalIds_length]
      omega
  · exact (ratio_le_hundred hs).mpr hcs
  · rw [coverage_ext, ratio_eq_hundred hs]
    exact commonSnps_card_eq_set_iff bim t

/-- C3, witness: the amended statement evaluated at the panel `bim3` and the
non-empty definition `t3` (two distinct entries, one matching: coverage 50). -/
theorem C3_amended_witness :
    t3.rows ≠ [] ∧
    (coverage_calc bim3 t3 =
      ((commonSnps bim3 t3).card : ℚ) / (t3.rows.length : ℚ) * 100
    ∧ 0 ≤ coverage_calc bim3 t3 ∧ coverage_calc bim3 t3 ≤ 100
    ∧ (coverage_calc bim3 t3 = 100 ↔
        (canonicalIds bim3 t3).Nodup ∧ ∀ id ∈ canonicalIds bim3 t3, id ∈ snps bim3)
    ∧ coverage_ext bim3 t3 =
      ((commonSnps bim3 t3).card : ℚ) / ((canonicalIds bim3 t3).toFinset.card : ℚ) * 100
    ∧ 0 ≤ coverage_ext bim3 t3 ∧ coverage_ext bim3 t3 ≤ 100
    ∧ (coverage_ext bim3 t3 = 100 ↔ ∀ id ∈ canonicalIds bim3 t3, id ∈ snps bim3)) :=
  ⟨by decide, C3_amended bim3 t3 (by decide)⟩

/-! ### Aggregation lemmas -/

theorem upsert_foldl_eq (n : Nat) (profiles : List (String × List ScoreRow)) :
    ∀ acc : List (String × List (Option ℚ)),
      (∀ p ∈ profiles, ∀ c ∈ acc, c.1 ≠ p.1) →
      (profiles.map Prod.fst).Nodup →
      profiles.foldl (fun acc p => upsertCol acc p.1 (colValues n p.2)) acc =
        acc ++ profiles.map (fun p => (p.1, colValues n p.2)) := by
  induction profiles with
  | nil => intro acc _ _; simp
  | cons p ps ih =>
    intro acc hdis hnd
    rw [List.map_cons, List.nodup_cons] at hnd
    have hnotin : (acc.any (fun c => c.1 == p.1)) = false := by
      rw [List.any_eq_false]
      intro c hc
      simpa using hdis p (List.mem_cons_self p ps) c hc
    rw [List.foldl_cons, upsertCol, hnotin]
    simp only [Bool.false_eq_true, if_false]
    rw [ih (acc ++ [(p.1, colValues n p.2)]) ?_ hnd.2]
    · simp
    · intro q hq c hc
      rcases List.mem_append.mp hc with hca | hcp
      · exact hdis q (List.mem_cons_of_mem p hq) c hca
      · have : c = (p.1, colValues n p.2) := by simpa using hcp
        rw [this]
        intro heq
        exact hnd.1 (heq ▸ List.mem_map_of_mem Prod.fst hq)

theorem buildScoreCols_eq (n : Nat) (profiles : List (String × List ScoreRow))
    (hnd : (profiles.map Prod.fst).Nodup) :
    buildScoreCols n profiles = profiles.map (fun p => (p.1, colValues n p.2)) := by
  simpa using upsert_foldl_eq n profiles [] (by simp) hnd

theorem colValues_getD (n : Nat) (st : List ScoreRow) (i : Nat) (h : i < n) :
    (colValues n st).getD i none = (st.map ScoreRow.SCORE)[i]? := by
  simp [colValues, List.getElem?_range h]

theorem famMatches_length_le (fam : List FamRow)
    (hnd : (fam.map (fun f => (f.FID, f.IID))).Nodup) (k : String × String) :
    (famMatches fam k).length ≤ 1 := by
  induction fam with
  | nil => simp [famMatches]
  | cons f fs ih =>
    rw [List.map_cons, List.nodup_cons] at hnd
    by_cases hp : f.FID = k.1 ∧ f.IID = k.2
    · have hnil : famMatches fs k = [] := by
        rw [famMatches, List.filter_eq_nil_iff]
        intro g hg hgp
        have hg2 : g.FID = k.1 ∧ g.IID = k.2 := by simpa using hgp
        have : (f.FID, f.IID) ∈ fs.map (fun f => (f.FID, f.IID)) := by
          have : (f.FID, f.IID) = (g.FID, g.IID) := by
            rw [hp.1, hp.2, hg2.1, hg2.2]
          exact this ▸ List.mem_map_of_mem _ hg
        exact hnd.1 this
      rw [famMatches, List.filter_cons]
      have hpt : (decide (f.FID = k.1 ∧ f.IID = k.2) = true) := by simpa using hp
      rw [famMatches] at hnil
      rw [if_pos hpt, hnil]
      simp
    · simp only [famMatches, List.filter_cons]
      have : ¬ (decide (f.FID = k.1 ∧ f.IID = k.2) = true) := by simpa using hp
      simp only [this, if_false]
      exact ih hnd.2

theorem flatten_map_length_one {α β : Type} (l : List α) (f : α → List β)
    (hf : ∀ a ∈ l, (f a).length = 1) : ((l.map f).flatten).length = l.length := by
  induction l with
  | nil => simp
  | cons a as ih =>
    simp only [List.map_cons, List.flatten_cons, List.length_append, List.length_cons]
    rw [hf a (List.mem_cons_self a as), ih (fun x hx => hf x (List.mem_cons_of_mem _ hx))]
    omega

theorem joinRow_length (fam : List FamRow)
    (hnd : (fam.map (fun f => (f.FID, f.IID))).Nodup) (ik : Nat × (String × String)) :
    (joinRow fam ik).length = 1 := by
  rw [joinRow]
  cases hm : famMatches fam ik.2 with
  | nil => simp
  | cons f fs =>
    have h := famMatches_length_le fam hnd ik.2
    rw [hm, List.length_cons] at h
    simp only [List.length_map, List.length_cons]
    omega

theorem leftJoinRows_length (keys : List (String × String)) (fam : List FamRow)
    (hnd : (fam.map (fun f => (f.FID, f.IID))).Nodup) :
    (leftJoinRows keys fam).length = keys.length := by
  rw [leftJoinRows, flatten_map_length_one _ _ (fun ik _ => joinRow_length fam hnd ik)]
  exact List.enum_length

theorem leftJoinRows_mem (keys : List (String × String)) (fam : List FamRow) :
    ∀ row ∈ leftJoinRows keys fam, row.1 < keys.length ∧ keys[row.1]? = some row.2.1 := by
  intro row hrow
  rw [leftJoinRows, List.mem_flatten] at hrow
  obtain ⟨branch, hb, hrb⟩ := hrow
  rw [List.mem_map] at hb
  obtain ⟨⟨i, k⟩, hik, rfl⟩ := hb
  have h1 : keys[i]? = some k := List.mk_mem_enum_iff_getElem?.mp hik
  have h2 : row.1 = i ∧ row.2.1 = k := by
    rw [joinRow] at hrb
    cases hm : famMatches fam (i, k).2 with
    | nil =>
      rw [hm] at hrb
      have : row = (i, k, none) := by simpa using hrb
      rw [this]
      exact ⟨rfl, rfl⟩
    | cons f fs =>
      rw [hm, List.mem_map] at hrb
      obtain ⟨g, _, hg⟩ := hrb
      rw [← hg]
      exact ⟨rfl, rfl⟩
  rw [h2.1, h2.2]
  exact ⟨(List.getElem?_eq_some.mp h1).1, h1⟩

theorem aggregate_eq (fam : List FamRow) (base : String × List ScoreRow)
    (profiles : List (String × List ScoreRow))
    (hnd : (profiles.map Prod.fst).Nodup)
    (hres : ∀ p ∈ profiles, ¬ (p.1 = "FID" ∨ p.1 = "IID" ∨ p.1 = "PHENOTYPE")) :
    aggregate fam base profiles =
      { scoreNames := profiles.map Prod.fst
        rows := (leftJoinRows (base.2.map (fun r => (r.FID, r.IID))) fam).map
          (fun row =>
            { FID := row.2.1.1
              IID := row.2.1.2
              scores := profiles.map (fun p => (p.2.map ScoreRow.SCORE)[row.1]?)
              y := row.2.2 }) } := by
  have hx : (profiles.map
        (fun p => (p.1, colValues (base.2.map (fun r => (r.FID, r.IID))).length p.2))).filter
        (fun c => ¬ (c.1 = "FID" ∨ c.1 = "IID" ∨ c.1 = "PHENOTYPE")) =
      profiles.map
        (fun p => (p.1, colValues (base.2.map (fun r => (r.FID, r.IID))).length p.2)) := by
    rw [List.filter_eq_self]
    intro c hc
    rw [List.mem_map] at hc
    obtain ⟨p, hp, rfl⟩ := hc
    simpa using hres p hp
  simp only [aggregate]
  rw [buildScoreCols_eq _ profiles hnd, hx]
  congr 1
  · rw [List.map_map]
    rfl
  · apply List.map_congr_left
    intro row hrow
    obtain ⟨hlt, -⟩ := leftJoinRows_mem _ fam row hrow
    rw [List.map_map]
    congr 1
    apply List.map_congr_left
    intro p _
    exact colValues_getD _ p.2 row.1 hlt

theorem calculate_pgs_eq (bim : List BimRow) (fam : List FamRow) (scorer : Scorer)
    (defs : List (String × PgsTable)) (base : String × List ScoreRow)
    (rest : List (String × List ScoreRow))
    (hp : processAll bim scorer defs = base :: rest) :
    calculate_pgs bim fam scorer defs = some (aggregate fam base (base :: rest)) := by
  rw [calculate_pgs, hp]

/-! ### Claim C1 — no SampleKey-mismatch handling in aggregation -/

/-- C1, counterexample. On the run over `defs1`, the first profile (base) has
the single SampleKey `(F1, I1)` while definition `B`'s profile has the
SampleKey `(F9, I9)`, absent from the base. The claim says a
`SampleKeyMismatch` is signalled and `B`'s column is excluded from the final
dataset. In fact no mismatch is detected: `calculate_pgs` keeps the column
`B` and attaches its score 2 positionally to the sample `(F1, I1)`. -/
theorem C1_counterexample :
    processAll bim1 scorer1 defs1 =
      [("A", [⟨"F1", "I1", 1⟩]), ("B", [⟨"F9", "I9", 2⟩])]
    ∧ (("F9", "I9") ∉ ([⟨"F1", "I1", (1 : ℚ)⟩] : List ScoreRow).map
        (fun r => (r.FID, r.IID)))
    ∧ calculate_pgs bim1 fam1 scorer1 defs1 =
        some ⟨["A", "B"], [⟨"F1", "I1", [some 1, some 2], some 1⟩]⟩ := by
  refine ⟨by rfl, by decide, by rfl⟩

/-- C1, amended. The base sample ordering is indeed taken from the first
successfully produced score table, but there is no SampleKey alignment check
at all: every successful definition's column is included in the final
dataset, and each column's value on the row at position `i` is the `i`-th
SCORE of that definition's table — assignment is positional by row index,
irrespective of the SampleKeys of the later tables (so a SampleKey present in
a later table but absent from the base is silently re-attached to whatever
sample sits at the same position, and no column is ever excluded). -/
theorem C1_amended (bim : List BimRow) (fam : List FamRow) (scorer : Scorer)
    (defs : List (String × PgsTable)) (base : String × List ScoreRow)
    (rest : List (String × List ScoreRow))
    (hp : processAll bim scorer defs = base :: rest)
    (hnd : (((base :: rest)).map Prod.fst).Nodup)
    (hres : ∀ p ∈ base :: rest, ¬ (p.1 = "FID" ∨ p.1 = "IID" ∨ p.1 = "PHENOTYPE")) :
    calculate_pgs bim fam scorer defs = some
      { scoreNames := (base :: rest).map Prod.fst
        rows := (leftJoinRows (base.2.map (fun r => (r.FID, r.IID))) fam).map
          (fun row =>
            { FID := row.2.1.1
              IID := row.2.1.2
              scores := (base :: rest).map
                (fun p => (p.2.map ScoreRow.SCORE)[row.1]?)
              y := row.2.2 }) } := by
  rw [calculate_pgs_eq bim fam scorer defs base rest hp,
    aggregate_eq fam base (base :: rest) hnd hres]

/-- C1, witness: the amended statement evaluated on the `defs1` run, where
definition `B`'s profile SampleKey `(F9, I9)` is absent from the base. -/
theorem C1_amended_witness :
    processAll bim1 scorer1 defs1 =
      ("A", [⟨"F1", "I1", 1⟩]) :: [("B", [⟨"F9", "I9", 2⟩])]
    ∧ calculate_pgs bim1 fam1 scorer1 defs1 = some
      { scoreNames := ((("A", [⟨"F1", "I1", 1⟩]) :: [("B", [⟨"F9", "I9", 2⟩])]) :
          List (String × List ScoreRow)).map Prod.fst
        rows := (leftJoinRows (([⟨"F1", "I1", 1⟩] : List ScoreRow).map
            (fun r => (r.FID, r.IID))) fam1).map
          (fun row =>
            { FID := row.2.1.1
              IID := row.2.1.2
              scores := ((("A", [⟨"F1", "I1", 1⟩]) :: [("B", [⟨"F9", "I9", 2⟩])]) :
                  List (String × List ScoreRow)).map
                (fun p => (p.2.map ScoreRow.SCORE)[row.1]?)
              y := row.2.2 }) } :=
  ⟨by rfl, C1_amended bim1 fam1 scorer1 defs1 ("A", [⟨"F1", "I1", 1⟩])
    [("B", [⟨"F9", "I9", 2⟩])] (by rfl) (by decide) (by decide)⟩

/-! ### Claim C2 — row-count and column-set invariant -/

/-- C2. For every run that writes an output dataset (processing produced a
non-empty profile list), provided the scorer honours its interface contract
(the base .profile table has one row per pedigree sample, `base.2.length =
fam.length`), the pedigree SampleKeys are unique, and the definition names
are distinct and do not collide with the reserved column labels: the written
dataset has exactly `fam.length` rows — the pedigree sample count, however
many definitions were skipped or dropped — and its score columns are exactly
the successfully scored definitions, beside the key columns and the
phenotype column. -/
theorem C2_row_count_invariant (bim : List BimRow) (fam : List FamRow)
    (scorer : Scorer) (defs : List (String × PgsTable))
    (base : String × List ScoreRow) (rest : List (String × List ScoreRow))
    (hp : processAll bim scorer defs = base :: rest)
    (hbase : base.2.length = fam.length)
    (hfam : (fam.map (fun f => (f.FID, f.IID))).Nodup)
    (hnd : ((base :: rest).map Prod.fst).Nodup)
    (hres : ∀ p ∈ base :: rest, ¬ (p.1 = "FID" ∨ p.1 = "IID" ∨ p.1 = "PHENOTYPE")) :
    ∃ d, calculate_pgs bim fam scorer defs = some d
      ∧ d.rows.length = fam.length
      ∧ d.scoreNames = (base :: rest).map Prod.fst := by
  have ha := aggregate_eq fam base (base :: rest) hnd hres
  refine ⟨aggregate fam base (base :: rest),
    calculate_pgs_eq bim fam scorer defs base rest hp, ?_, ?_⟩
  · rw [ha]
    simp only
    rw [List.length_map, leftJoinRows_length _ _ hfam, List.length_map, hbase]
  · rw [ha]

/-- C2, witness: the invariant evaluated on the two-definition,
two-sample run over `defs2`. -/
theorem C2_row_count_witness :
    ∃ d, calculate_pgs bim2 fam2 scorer2 defs2 = some d
      ∧ d.rows.length = fam2.length
      ∧ d.scoreNames = ((("A", [⟨"F1", "I1", 1⟩, ⟨"F2", "I2", 3⟩]) ::
          [("B", [⟨"F1", "I1", 5⟩, ⟨"F2", "I2", 7⟩])]) :
          List (String × List ScoreRow)).map Prod.fst :=
  C2_row_count_invariant bim2 fam2 scorer2 defs2
    ("A", [⟨"F1", "I1", 1⟩, ⟨"F2", "I2", 3⟩])
    [("B", [⟨"F1", "I1", 5⟩, ⟨"F2", "I2", 7⟩])]
    (by rfl) (by rfl) (by decide) (by decide) (by decide)

/-! ### Claim C9 — output column order -/

/-- C9. For every run that writes an output dataset (with distinct definition
names that avoid the reserved labels FID/IID/PHENOTYPE), the written csv's
columns are, in order: the family-ID column `FID`, the individual-ID column
`IID`, one score column per successfully scored definition in processing
order, and finally the phenotype column `y`. -/
theorem C9_column_order (bim : List BimRow) (fam : List FamRow)
    (scorer : Scorer) (defs : List (String × PgsTable))
    (base : String × List ScoreRow) (rest : List (String × List ScoreRow))
    (hp : processAll bim scorer defs = base :: rest)
    (hnd : ((base :: rest).map Prod.fst).Nodup)
    (hres : ∀ p ∈ base :: rest, ¬ (p.1 = "FID" ∨ p.1 = "IID" ∨ p.1 = "PHENOTYPE")) :
    ∃ d, calculate_pgs bim fam scorer defs = some d
      ∧ d.colNames = "FID" :: "IID" :: ((base :: rest).map Prod.fst ++ ["y"]) := by
  refine ⟨aggregate fam base (base :: rest),
    calculate_pgs_eq bim fam scorer defs base rest hp, ?_⟩
  rw [aggregate_eq fam base (base :: rest) hnd hres, FinalDataset.colNames]
  rfl

/-- C9, witness: the column order evaluated on the `defs2` run. -/
theorem C9_column_order_witness :
    ∃ d, calculate_pgs bim2 fam2 scorer2 defs2 = some d
      ∧ d.colNames = "FID" :: "IID" :: (((("A", [⟨"F1", "I1", 1⟩, ⟨"F2", "I2", 3⟩]) ::
          [("B", [⟨"F1", "I1", 5⟩, ⟨"F2", "I2", 7⟩])]) :
          List (String × List ScoreRow)).map Prod.fst ++ ["y"]) :=
  C9_column_order bim2 fam2 scorer2 defs2
    ("A", [⟨"F1", "I1", 1⟩, ⟨"F2", "I2", 3⟩])
    [("B", [⟨"F1", "I1", 5⟩, ⟨"F2", "I2", 7⟩])]
    (by rfl) (by decide) (by decide)

/-! ### Claim C4 — positional identifier normalization -/

/-- C4. For every scoring entry of a definition that carries positional
columns but no rsID column, the canonical identifier is the synthesized
string `"chr{chr_name}:{chr_position}"` looked up in the position index
built from the reference panel: when some panel row has that positional key,
the canonical identifier is that panel row's ID; when no panel row has it,
the canonical identifier is exactly the synthesized positional string. -/
theorem C4_positional_normalization (bim : List BimRow) (t : PgsTable)
    (r : PgsRow) (hr : t.hasRsID = false) (hpos : is_position_based t = true) :
    canonicalId bim t r = posDictGet bim (posKey r.chr_name r.chr_position)
    ∧ posKey r.chr_name r.chr_position =
        "chr" ++ r.chr_name ++ ":" ++ r.chr_position
    ∧ ((∃ b ∈ bim, posKey b.chr b.pos = posKey r.chr_name r.chr_position) →
        ∃ b ∈ bim, posKey b.chr b.pos = posKey r.chr_name r.chr_position ∧
          canonicalId bim t r = b.rsID)
    ∧ ((∀ b ∈ bim, posKey b.chr b.pos ≠ posKey r.chr_name r.chr_position) →
        canonicalId bim t r = posKey r.chr_name r.chr_position) := by
  have h1 : canonicalId bim t r = posDictGet bim (posKey r.chr_name r.chr_position) := by
    rw [canonicalId, hr]
    simp
  refine ⟨h1, rfl, ?_, ?_⟩
  · rintro ⟨b, hb, hkey⟩
    have hsome : ∃ b', bim.reverse.find?
        (fun x => posKey x.chr x.pos == posKey r.chr_name r.chr_position) = some b' := by
      rw [← Option.isSome_iff_exists, List.find?_isSome]
      exact ⟨b, List.mem_reverse.mpr hb, by simpa using hkey⟩
    obtain ⟨b', hb'⟩ := hsome
    have hmem := List.mem_of_find?_eq_some hb'
    have hpred := List.find?_some hb'
    refine ⟨b', List.mem_reverse.mp hmem, by simpa using hpred, ?_⟩
    rw [h1, posDictGet, hb']
  · intro hnone
    have hn : bim.reverse.find?
        (fun x => posKey x.chr x.pos == posKey r.chr_name r.chr_position) = none := by
      rw [List.find?_eq_none]
      intro x hx
      simpa using hnone x (List.mem_reverse.mp hx)
    rw [h1, posDictGet, hn]

/-- C4, witness: the normalization evaluated at the two entries of the
position-based definition `t4` — chr1:100 resolves to the panel ID `rs1`,
chr7:777 (no panel row) stays the synthesized string. -/
theorem C4_positional_witness :
    t4.hasRsID = false ∧ is_position_based t4 = true ∧
    (canonicalId bim4 t4 ⟨"", "1", "100", "A", "0.5"⟩ =
        posDictGet bim4 (posKey "1" "100")
      ∧ posKey "1" "100" = "chr" ++ "1" ++ ":" ++ "100"
      ∧ ((∃ b ∈ bim4, posKey b.chr b.pos = posKey "1" "100") →
          ∃ b ∈ bim4, posKey b.chr b.pos = posKey "1" "100" ∧
            canonicalId bim4 t4 ⟨"", "1", "100", "A", "0.5"⟩ = b.rsID)
      ∧ ((∀ b ∈ bim4, posKey b.chr b.pos ≠ posKey "1" "100") →
          canonicalId bim4 t4 ⟨"", "1", "100", "A", "0.5"⟩ = posKey "1" "100")) ∧
    canonicalId bim4 t4 ⟨"", "1", "100", "A", "0.5"⟩ = "rs1" ∧
    canonicalId bim4 t4 ⟨"", "7", "777", "C", "0.1"⟩ = "chr7:777" :=
  ⟨rfl, rfl, C4_positional_normalization bim4 t4 ⟨"", "1", "100", "A", "0.5"⟩ rfl rfl,
    by decide, by decide⟩

/-! ### Claim C5 — weight table contents -/

/-- C5. For every definition with at least one matched variant, the weight
table handed to the external scorer has at most as many rows as the
definition, every emitted canonical ID belongs to the panel's variant ID
set, and the emitted IDs are exactly the canonical IDs of the definition
that lie in `matchedIds`, in the definition's own order (stable filter, no
deduplication of repeated canonical IDs). -/
theorem C5_weight_table (bim : List BimRow) (t : PgsTable)
    (h : (commonSnps bim t).card ≠ 0) :
    (weightTable bim t).length ≤ t.rows.length
    ∧ (∀ w ∈ weightTable bim t, w.snp ∈ snps bim)
    ∧ (weightTable bim t).map WeightRow.snp =
        (canonicalIds bim t).filter (fun i => decide (i ∈ commonSnps bim t)) := by
  refine ⟨?_, ?_, ?_⟩
  · rw [weightTable, List.length_map]
    exact List.length_filter_le _ _
  · intro w hw
    rw [weightTable, List.mem_map] at hw
    obtain ⟨r, hr, rfl⟩ := hw
    rw [List.mem_filter] at hr
    have hin : canonicalId bim t r ∈ commonSnps bim t := by simpa using hr.2
    exact Finset.inter_subset_right hin
  · rw [weightTable, canonicalIds, List.map_map, List.filter_map]
    rfl

/-- C5, witness: the weight table of the definition `t5` (entries `rs1`,
`rs9`, `rs1` against the panel `bim3`): two rows, both `rs1`, repeated and
in source order. -/
theorem C5_weight_table_witness :
    (commonSnps bim3 t5).card ≠ 0 ∧
    ((weightTable bim3 t5).length ≤ t5.rows.length
    ∧ (∀ w ∈ weightTable bim3 t5, w.snp ∈ snps bim3)
    ∧ (weightTable bim3 t5).map WeightRow.snp =
        (canonicalIds bim3 t5).filter (fun i => decide (i ∈ commonSnps bim3 t5))) :=
  ⟨by decide, C5_weight_table bim3 t5 (by decide)⟩

/-! ### Claim C6 — per-definition error isolation -/

/-- C6. Every per-definition error — no resolvable identifier scheme, missing
required weight columns, an empty definition, no overlap with the panel, or an
external-scorer failure — is caught at the definition-processing boundary:
the failing definition contributes no profile (hence no column), the profile
list and the whole run over the remaining definitions are exactly what they
would be without the failing definition, and no such error aborts the run. -/
theorem C6_per_definition_isolation (bim : List BimRow) (fam : List FamRow)
    (scorer : Scorer) (ds₁ : List (String × PgsTable)) (nm : String)
    (t : PgsTable) (ds₂ : List (String × PgsTable))
    (herr : (is_rsid_based t || is_position_based t) = false
      ∨ (t.hasEffectAllele && t.hasEffectWeight) = false
      ∨ t.rows = []
      ∨ (commonSnps bim t).card = 0
      ∨ scorer nm (weightTable bim t) = none) :
    processOne bim scorer nm t = none
    ∧ processAll bim scorer (ds₁ ++ (nm, t) :: ds₂) =
        processAll bim scorer (ds₁ ++ ds₂)
    ∧ calculate_pgs bim fam scorer (ds₁ ++ (nm, t) :: ds₂) =
        calculate_pgs bim fam scorer (ds₁ ++ ds₂) := by
  have h1 : processOne bim scorer nm t = none := by
    rw [processOne]
    split_ifs <;> simp_all
  have h2 : processAll bim scorer (ds₁ ++ (nm, t) :: ds₂) =
      processAll bim scorer (ds₁ ++ ds₂) := by
    rw [processAll, processAll, List.filterMap_append, List.filterMap_append,
      List.filterMap_cons]
    simp [h1]
  exact ⟨h1, h2, by rw [calculate_pgs, calculate_pgs, h2]⟩

/-- C6, witness: a definition with neither an rsID column nor both positional
columns, placed between two good definitions, contributes nothing and leaves
the rest of the run untouched. -/
theorem C6_isolation_witness :
    ((is_rsid_based t6bad || is_position_based t6bad) = false
      ∨ (t6bad.hasEffectAllele && t6bad.hasEffectWeight) = false
      ∨ t6bad.rows = []
      ∨ (commonSnps bim2 t6bad).card = 0
      ∨ scorer2 "BAD" (weightTable bim2 t6bad) = none)
    ∧ (processOne bim2 scorer2 "BAD" t6bad = none
      ∧ processAll bim2 scorer2 ([("A", t2a)] ++ ("BAD", t6bad) :: [("B", t2b)]) =
          processAll bim2 scorer2 ([("A", t2a)] ++ [("B", t2b)])
      ∧ calculate_pgs bim2 fam2 scorer2 ([("A", t2a)] ++ ("BAD", t6bad) :: [("B", t2b)]) =
          calculate_pgs bim2 fam2 scorer2 ([("A", t2a)] ++ [("B", t2b)])) :=
  ⟨Or.inl (by decide),
    C6_per_definition_isolation bim2 fam2 scorer2 [("A", t2a)] "BAD" t6bad
      [("B", t2b)] (Or.inl (by decide))⟩

/-! ### Claim C7 — no scorable definitions aborts without output -/

/-- C7. If no scoring definition produced a usable score table (the profile
list is empty), `calculate_pgs` returns the explicit empty result — `none` in
this embedding, i.e. the `(None, None)` of the source — and no output
dataset is written. -/
theorem C7_no_scorable_definitions (bim : List BimRow) (fam : List FamRow)
    (scorer : Scorer) (defs : List (String × PgsTable))
    (h : processAll bim scorer defs = []) :
    calculate_pgs bim fam scorer defs = none := by
  rw [calculate_pgs, h]

/-- C7, witness: a single definition with no overlap against the panel
produces no profile, and the run returns the empty result. -/
theorem C7_no_scorable_witness :
    processAll bim3 scorer6 [("A", t7)] = []
    ∧ calculate_pgs bim3 fam1 scorer6 [("A", t7)] = none :=
  ⟨by rfl, C7_no_scorable_definitions bim3 fam1 scorer6 [("A", t7)] (by rfl)⟩

/-! ### Claim C8 — SampleKey-based left joins, not positional zips -/

/-- C8. Both joins are SampleKey-based left joins. In `pgs_calculator.py`,
every feature-side row (position `i`, SampleKey `k`) appears in the merged
output, and when no pedigree row carries `k` it appears with a null
phenotype — never dropped. In `snp_extractor.py`, the label vector has one
entry per dosage-table sample row, each entry is the SampleKey-dictionary
lookup of that row's `FID_IID` key (not the pedigree row at the same
position), and a sample with no pedigree match gets a null label. -/
theorem C8_samplekey_left_joins (fam : List FamRow)
    (keys : List (String × String)) (genos : List GenoRow) :
    (∀ i k, keys[i]? = some k →
      (famMatches fam k = [] → (i, k, (none : Option ℚ)) ∈ leftJoinRows keys fam)
      ∧ ∃ ph, (i, k, ph) ∈ leftJoinRows keys fam)
    ∧ (labelVector genos fam).length = genos.length
    ∧ (∀ (i : Nat) (g : GenoRow), genos[i]? = some g →
        (labelVector genos fam)[i]? =
          some (phenotype_dict fam (sampleId g.FID g.IID))
        ∧ ((∀ f ∈ fam, sampleId f.FID f.IID ≠ sampleId g.FID g.IID) →
            (labelVector genos fam)[i]? = some none)) := by
  refine ⟨?_, by simp [labelVector], ?_⟩
  · intro i k hik
    have hmem : (i, k) ∈ keys.enum := List.mk_mem_enum_iff_getElem?.mpr hik
    have hbranch : joinRow fam (i, k) ∈ keys.enum.map (joinRow fam) :=
      List.mem_map_of_mem _ hmem
    constructor
    · intro hnil
      rw [leftJoinRows]
      exact List.mem_flatten.mpr ⟨joinRow fam (i, k), hbranch,
        by rw [joinRow]; rw [show ((i, k) : Nat × String × String).2 = k from rfl, hnil]; simp⟩
    · cases hm : famMatches fam k with
      | nil =>
        refine ⟨none, ?_⟩
        rw [leftJoinRows]
        exact List.mem_flatten.mpr ⟨joinRow fam (i, k), hbranch,
          by rw [joinRow]; rw [show ((i, k) : Nat × String × String).2 = k from rfl, hm]; simp⟩
      | cons f fs =>
        refine ⟨some f.PHENOTYPE, ?_⟩
        rw [leftJoinRows]
        refine List.mem_flatten.mpr ⟨joinRow fam (i, k), hbranch, ?_⟩
        rw [joinRow]
        rw [show ((i, k) : Nat × String × String).2 = k from rfl, hm]
        exact List.mem_map_of_mem _ (List.mem_cons_self f fs)
  · intro i g hig
    have h1 : (labelVector genos fam)[i]? =
        some (phenotype_dict fam (sampleId g.FID g.IID)) := by
      rw [labelVector, List.getElem?_map, hig]
      rfl
    refine ⟨h1, fun hno => ?_⟩
    rw [h1]
    have hn : fam.reverse.find?
        (fun f => sampleId f.FID f.IID == sampleId g.FID g.IID) = none := by
      rw [List.find?_eq_none]
      intro x hx
      simpa using hno x (List.mem_reverse.mp hx)
    rw [phenotype_dict, hn]
    rfl

/-- C8, witness: on `keys8`/`genos8` (second sample `(F9, I9)` absent from
the pedigree `fam8`), the unmatched feature row is kept with a null
phenotype and the unmatched dosage row gets a null label. -/
theorem C8_samplekey_witness :
    ((famMatches fam8 ("F9", "I9") = [] →
        ((1 : Nat), ("F9", "I9"), (none : Option ℚ)) ∈ leftJoinRows keys8 fam8)
      ∧ ∃ ph, ((1 : Nat), ("F9", "I9"), ph) ∈ leftJoinRows keys8 fam8)
    ∧ (labelVector genos8 fam8).length = genos8.length
    ∧ ((labelVector genos8 fam8)[1]? =
        some (phenotype_dict fam8 (sampleId "F9" "I9"))
      ∧ ((∀ f ∈ fam8, sampleId f.FID f.IID ≠ sampleId "F9" "I9") →
          (labelVector genos8 fam8)[1]? = some none)) := by
  have h := C8_samplekey_left_joins fam8 keys8 genos8
  exact ⟨h.1 1 ("F9", "I9") (by rfl), h.2.1, h.2.2 1 ⟨"F9", "I9"⟩ (by rfl)⟩

/-! ### Claim C10 — scheme detection is column-level -/

/-- C10. For every scoring definition whose file has an `rsID` column
(`is_rsid_based`), the canonical identifiers are the verbatim values of that
column — no entry is resolved through the PositionIndex, regardless of
whether `chr_name`/`chr_position` columns are also present, and an entry
whose rsID value is empty keeps that empty value as its canonical
identifier. -/
theorem C10_column_level_detection (bim : List BimRow) (t : PgsTable)
    (h : t.hasRsID = true) :
    canonicalIds bim t = t.rows.map PgsRow.rsID
    ∧ ∀ r ∈ t.rows, canonicalId bim t r = r.rsID := by
  constructor
  · rw [canonicalIds]
    apply List.map_congr_left
    intro r _
    rw [canonicalId, h]
    simp
  · intro r _
    rw [canonicalId, h]
    simp

/-- C10, witness: `t10` has an rsID column and both positional columns; its
entry's empty rsID is kept verbatim as the canonical identifier even though
its positional key chr1:100 would have resolved to the panel ID `rs1`. -/
theorem C10_column_level_witness :
    t10.hasRsID = true
    ∧ (canonicalIds bim4 t10 = t10.rows.map PgsRow.rsID
      ∧ ∀ r ∈ t10.rows, canonicalId bim4 t10 r = r.rsID)
    ∧ is_position_based t10 = true
    ∧ canonicalId bim4 t10 ⟨"", "1", "100", "A", "0.5"⟩ = ""
    ∧ posDictGet bim4 (posKey "1" "100") = "rs1" :=
  ⟨rfl, C10_column_level_detection bim4 t10 rfl, rfl, by decide, by decide⟩
